import Mathlib

/-!
Shallow embedding of `jobs_scraper.py` (a single-file job-posting
aggregation pipeline) and proofs of the specification claims about it.

Modelling conventions:
* Python `str` values are Lean `String`; an optional / possibly-`None`
  field is `Option String`.
* Python truthiness of strings (`if t:`) is modelled explicitly: `None`
  and `""` are falsy.
* `re.search` with each of the four concrete experience patterns is
  embedded as a left-to-right scan (`search…` functions below) that at
  each start position attempts a deterministic greedy match.  For these
  particular patterns greedy matching without backtracking coincides
  with Python's backtracking semantics, because every quantified atom
  (`\s*`, `\s+`, `\d{1,2}`) is followed by an atom whose character set
  is disjoint from the quantified one.
* Network / HTML effects are inputs: an adapter receives the outcome of
  its fetch-and-select phase as an `Except` value, mirroring the
  `try/except` structure of the source.
-/

namespace JobsScraper

/-- Python `str.isspace` characters relevant to `str.split()` /
`\s` in the `re` module (ASCII fragment): space, tab, newline,
carriage return, vertical tab, form feed. -/
def pyIsSpace (c : Char) : Bool :=
  c == ' ' || c == '\t' || c == '\n' || c == '\r' || c == '\x0b' || c == '\x0c'

/-- Helper for `str.split()` (no separator argument): accumulate the
current word in `acc` (reversed); whitespace flushes the word, and
empty words are never produced. -/
def splitWsAux (acc : List Char) : List Char → List (List Char)
  | [] => if acc.isEmpty then [] else [acc.reverse]
  | c :: rest =>
    if pyIsSpace c then
      if acc.isEmpty then splitWsAux [] rest
      else acc.reverse :: splitWsAux [] rest
    else splitWsAux (c :: acc) rest

/-- Python `t.split()`: split on runs of whitespace, discarding empty
tokens. -/
def pySplit (l : List Char) : List (List Char) := splitWsAux [] l

/-- Python `" ".join(tokens)` at the character-list level. -/
def joinSp : List (List Char) → List Char
  | [] => []
  | [t] => t
  | t :: ts => t ++ ' ' :: joinSp ts

/-- `" ".join(l.split())` at the character-list level. -/
def normChars (l : List Char) : List Char := joinSp (pySplit l)

/-- `normalize_text(t)` from the source:
`return " ".join(t.split()) if t else ""` — `None` and `""` are falsy. -/
def normalize_text (t : Option String) : String :=
  match t with
  | none => ""
  | some s => if s = "" then "" else String.mk (normChars s.data)

/-! ### Experience-pattern matching (`parse_experience_text`) -/

/-- Decimal value of an ASCII digit character. -/
def digVal (c : Char) : Nat := c.toNat - '0'.toNat

/-- `\d{1,2}` at the current position, greedy: one or two ASCII digits,
returning the parsed number and the remaining characters; `none` when
the position does not start with a digit. -/
def readDigits2 : List Char → Option (Nat × List Char)
  | [] => none
  | c :: rest =>
    if c.isDigit then
      match rest with
      | d :: rest2 =>
        if d.isDigit then some (10 * digVal c + digVal d, rest2)
        else some (digVal c, rest)
      | [] => some (digVal c, [])
    else none

/-- `\s*`: skip a (possibly empty) whitespace run. -/
def skipWs (l : List Char) : List Char := l.dropWhile pyIsSpace

/-- `\s+`: at least one whitespace character, then skip the run. -/
def skipWs1 : List Char → Option (List Char)
  | [] => none
  | c :: rest => if pyIsSpace c then some (rest.dropWhile pyIsSpace) else none

/-- `years?` with nothing after it in the pattern: succeeds iff the
input starts with the literal `year` (the optional `s` constrains
nothing). -/
def matchYears : List Char → Bool
  | 'y' :: 'e' :: 'a' :: 'r' :: _ => true
  | _ => false

/-- The character class `[-â€“]` of the first source pattern.  The
source file stores a mojibake-encoded en dash, so the class holds the
literal hyphen together with the three characters U+00E2, U+20AC,
U+201C. -/
def isDashChar (c : Char) : Bool :=
  c == '-' || c == 'â' || c == '€' || c == '“'

/-- Match `(\d{1,2})\s*[-â€“]\s*(\d{1,2})\s*years?` anchored at the
start of `l`. -/
def matchRangeAt (l : List Char) : Option (Nat × Nat) :=
  match readDigits2 l with
  | none => none
  | some (n, r1) =>
    match skipWs r1 with
    | [] => none
    | c :: r2 =>
      if isDashChar c then
        match readDigits2 (skipWs r2) with
        | none => none
        | some (m, r3) =>
          if matchYears (skipWs r3) then some (n, m) else none
      else none

/-- `re.search` for the bounded-range pattern: try every start
position left to right. -/
def searchRange : List Char → Option (Nat × Nat)
  | [] => none
  | c :: rest =>
    match matchRangeAt (c :: rest) with
    | some r => some r
    | none => searchRange rest

/-- Match `(\d{1,2})\s*\+\s*years?` anchored at the start of `l`. -/
def matchPlusAt (l : List Char) : Option Nat :=
  match readDigits2 l with
  | none => none
  | some (n, r1) =>
    match skipWs r1 with
    | [] => none
    | c :: r2 =>
      if c == '+' then
        if matchYears (skipWs r2) then some n else none
      else none

/-- `re.search` for the open-ended-minimum pattern. -/
def searchPlus : List Char → Option Nat
  | [] => none
  | c :: rest =>
    match matchPlusAt (c :: rest) with
    | some r => some r
    | none => searchPlus rest

/-- Match the literal word `minimum` at the start of `l`, returning the
rest. -/
def matchWordMinimum : List Char → Option (List Char)
  | 'm' :: 'i' :: 'n' :: 'i' :: 'm' :: 'u' :: 'm' :: rest => some rest
  | _ => none

/-- Match the literal word `of` at the start of `l`, returning the
rest. -/
def matchWordOf : List Char → Option (List Char)
  | 'o' :: 'f' :: rest => some rest
  | _ => none

/-- Match `minimum\s+of\s+(\d{1,2})\s*years?` anchored at the start of
`l`. -/
def matchMinAt (l : List Char) : Option Nat :=
  match matchWordMinimum l with
  | none => none
  | some r1 =>
    match skipWs1 r1 with
    | none => none
    | some r2 =>
      match matchWordOf r2 with
      | none => none
      | some r3 =>
        match skipWs1 r3 with
        | none => none
        | some r4 =>
          match readDigits2 r4 with
          | none => none
          | some (n, r5) =>
            if matchYears (skipWs r5) then some n else none

/-- `re.search` for the `minimum of N years` pattern. -/
def searchMin : List Char → Option Nat
  | [] => none
  | c :: rest =>
    match matchMinAt (c :: rest) with
    | some r => some r
    | none => searchMin rest

/-- Match `(\d{1,2})\s*years?` anchored at the start of `l`. -/
def matchBareAt (l : List Char) : Option Nat :=
  match readDigits2 l with
  | none => none
  | some (n, r1) => if matchYears (skipWs r1) then some n else none

/-- `re.search` for the bare `N years` pattern. -/
def searchBare : List Char → Option Nat
  | [] => none
  | c :: rest =>
    match matchBareAt (c :: rest) with
    | some r => some r
    | none => searchBare rest

/-- Python `text.lower()` restricted to ASCII case mapping, at the
character-list level. -/
def lowerChars (l : List Char) : List Char := l.map Char.toLower

/-- `parse_experience_text(text)` from the source: returns
`(min_years, max_years_or_None)`; `None`/`""` input short-circuits to
`(None, None)`, otherwise the four `re.search` patterns are tried in
order with first-match-wins. -/
def parse_experience_text (text : Option String) : Option Nat × Option Nat :=
  match text with
  | none => (none, none)
  | some s =>
    if s = "" then (none, none)
    else
      let t := lowerChars s.data
      match searchRange t with
      | some (n, m) => (some n, some m)
      | none =>
        match searchPlus t with
        | some n => (some n, none)
        | none =>
          match searchMin t with
          | some n => (some n, none)
          | none =>
            match searchBare t with
            | some n => (some n, some n)
            | none => (none, none)

/-! ### Experience-range acceptance (`experience_matches`) -/

/-- `MIN_YEARS` configuration constant from the source. -/
def MIN_YEARS : Nat := 2

/-- `MAX_YEARS` configuration constant from the source. -/
def MAX_YEARS : Nat := 6

/-- `experience_matches(min_y, max_y)` from the source, mirroring its
if-chain: both `None` → accept; both present → interval overlap with
`[MIN_YEARS, MAX_YEARS]`; only min → `min_y <= MAX_YEARS`; only max →
`max_y >= MIN_YEARS`; the final `return False` is kept verbatim even
though no case reaches it. -/
def experience_matches (min_y max_y : Option Nat) : Bool :=
  if min_y.isNone && max_y.isNone then
    true
  else if min_y.isSome && max_y.isSome then
    !(decide (max_y.getD 0 < MIN_YEARS) || decide (min_y.getD 0 > MAX_YEARS))
  else if min_y.isSome then
    decide (min_y.getD 0 ≤ MAX_YEARS)
  else if max_y.isSome then
    decide (max_y.getD 0 ≥ MIN_YEARS)
  else
    false

/-- Branch labels for the if-chain of `experience_matches`, used to
state which branches can fire. -/
inductive ExpBranch where
  | bothNone
  | bothSome
  | minOnly
  | maxOnly
  | fallthrough
deriving DecidableEq

/-- Which branch of the `experience_matches` if-chain fires for a given
argument pair (same guards, in the same order, as the source). -/
def experienceBranch (min_y max_y : Option Nat) : ExpBranch :=
  if min_y.isNone && max_y.isNone then ExpBranch.bothNone
  else if min_y.isSome && max_y.isSome then ExpBranch.bothSome
  else if min_y.isSome then ExpBranch.minOnly
  else if max_y.isSome then ExpBranch.maxOnly
  else ExpBranch.fallthrough

/-! ### Substring search and the remaining text heuristics -/

/-- Is `p` a prefix of `l`? (Bool version, for Python's `startswith`
and as a building block of `in`.) -/
def startsWithCh : List Char → List Char → Bool
  | [], _ => true
  | _ :: _, [] => false
  | p :: ps, c :: cs => p == c && startsWithCh ps cs

/-- Python substring containment `needle in hay` on character lists. -/
def containsSubCh (needle : List Char) : List Char → Bool
  | [] => startsWithCh needle []
  | c :: rest => startsWithCh needle (c :: rest) || containsSubCh needle rest

/-- Python `needle in hay` on strings. -/
def containsSub (hay needle : String) : Bool := containsSubCh needle.data hay.data

/-- Python `s.startswith(p)` on strings. -/
def strStartsWith (s p : String) : Bool := startsWithCh p.data s.data

/-- Python `s.lower()` on strings (ASCII case mapping). -/
def lowerStr (s : String) : String := String.mk (lowerChars s.data)

/-- `location_matches(location_text)` from the source: empty/absent
accepts; otherwise lower-case and accept iff one of the tokens
`remote`, `india`, `india remote`, `pan india` occurs. -/
def location_matches (location_text : Option String) : Bool :=
  match location_text with
  | none => true
  | some s =>
    if s = "" then true
    else
      let t := lowerStr s
      containsSub t "remote" || containsSub t "india" ||
        containsSub t "india remote" || containsSub t "pan india"

/-- `KEYWORDS` configuration list from the source. -/
def KEYWORDS : List String :=
  ["DevOps Engineer", "Cloud Engineer", "Site Reliability Engineer",
   "Platform Engineer", "Infrastructure Engineer", "AWS Engineer",
   "Azure DevOps Engineer", "Kubernetes Engineer"]

/-- `text_contains_keywords(text, keywords=KEYWORDS)` from the source:
lower-case the (possibly `None`) text, accept on any lowered keyword
substring, else on one of the fallback tokens `devops`, `cloud`,
`sre`, `site reliability`. -/
def text_contains_keywords (text : Option String) (keywords : List String := KEYWORDS) : Bool :=
  let t := lowerStr (text.getD "")
  keywords.any (fun kw => containsSub t (lowerStr kw)) ||
    (containsSub t "devops" || containsSub t "cloud" ||
      containsSub t "sre" || containsSub t "site reliability")

/-! ### JobRecord, aggregation (dedup), and the filter -/

/-- The record dictionaries built by the scrapers; every field may be
`None` in the source, so each is an `Option String` here. -/
structure JobRecord where
  title : Option String
  company : Option String
  location : Option String
  link : Option String
  source : Option String
  snippet : Option String
deriving DecidableEq

/-- Python `a or b` for an optional string `a` and string `b`: `None`
and `""` fall through to `b`. -/
def pyOrStr (a : Option String) (b : String) : String :=
  match a with
  | none => b
  | some s => if s = "" then b else s

/-- Python `a or b` where both sides are optional strings. -/
def pyOrOpt (a b : Option String) : Option String :=
  match a with
  | none => b
  | some s => if s = "" then b else some s

/-- The dedup key of `collect_jobs`:
`j.get("link") or j.get("title") or ""`. -/
def recordKey (j : JobRecord) : String := pyOrStr j.link (pyOrStr j.title "")

/-- The dedup loop of `collect_jobs`: `seen` is the key set of the
`uniq` dict built so far; a record with empty key is skipped, a record
whose key was already inserted is skipped, otherwise it is appended
(dict insertion order = output order). -/
def dedupAux (seen : List String) : List JobRecord → List JobRecord
  | [] => []
  | j :: rest =>
    let key := recordKey j
    if key = "" then dedupAux seen rest
    else if key ∈ seen then dedupAux seen rest
    else j :: dedupAux (key :: seen) rest

/-- The dedup step of `collect_jobs` (lines building `uniq` and
returning `list(uniq.values())`). -/
def dedupRecords (jobs : List JobRecord) : List JobRecord := dedupAux [] jobs

/-- The combined blob of `filter_jobs`:
`" ".join([title or "", company or "", location or "", snippet or ""])`. -/
def joinFields (j : JobRecord) : String :=
  (j.title.getD "") ++ " " ++ (j.company.getD "") ++ " " ++
    (j.location.getD "") ++ " " ++ (j.snippet.getD "")

/-- `combined_text` after `normalize_text` in `filter_jobs`. -/
def combinedText (j : JobRecord) : String := normalize_text (some (joinFields j))

/-- `filter_jobs(raw_jobs)` from the source, with the three
`continue`-guards rendered as nested conditionals. -/
def filter_jobs : List JobRecord → List JobRecord
  | [] => []
  | j :: rest =>
    let ct := combinedText j
    if !text_contains_keywords (some ct) then filter_jobs rest
    else
      let p := parse_experience_text (some ct)
      if !experience_matches p.1 p.2 then filter_jobs rest
      else if !location_matches (pyOrOpt j.location j.snippet) then filter_jobs rest
      else j :: filter_jobs rest

/-- The keep-predicate the spec ascribes to the Filter: relevance on
the combined blob, then experience extraction + range acceptance, then
location acceptance on `location or snippet`. -/
def filterKeep (j : JobRecord) : Bool :=
  text_contains_keywords (some (combinedText j)) &&
    (let p := parse_experience_text (some (combinedText j))
     experience_matches p.1 p.2) &&
    location_matches (pyOrOpt j.location j.snippet)

/-! ### Source adapters -/

/-- A parsed HTML anchor as the scrapers consume it: its `href`
attribute (possibly absent), its visible text, and the visible text of
its parent element when one exists. -/
structure Anchor where
  href : Option String
  text : String
  parentText : Option String
deriving DecidableEq

/-- `scrape_indeed` from the source.  The fetch / parse / select phase
(`requests.get`, `BeautifulSoup`, `soup.select`) is an external
collaborator, so its outcome is the input: `Except.error` is a raised
exception — caught by the adapter's `except` clause, which returns the
`results` accumulated so far, i.e. the empty list. -/
def scrape_indeed (fetched : Except String (List Anchor)) : List JobRecord :=
  match fetched with
  | Except.error _ => []
  | Except.ok cards =>
    (cards.take 25).map (fun a =>
      let link0 := a.href.getD ""
      let link :=
        if link0 != "" && strStartsWith link0 "/rc/" then
          "https://in.indeed.com" ++ link0
        else link0
      let title := normalize_text (some a.text)
      let snippet :=
        match a.parentText with
        | some p => normalize_text (some p)
        | none => ""
      { title := some title, company := none, location := some snippet,
        link := some link, source := some "Indeed", snippet := some snippet })

/-- The anchor loop of `scrape_wellfound`, with its local `seen` set of
already-emitted links. -/
def wellfoundLoop (seen : List String) : List Anchor → List JobRecord
  | [] => []
  | a :: rest =>
    match a.href with
    | none => wellfoundLoop seen rest
    | some href =>
      if href = "" then wellfoundLoop seen rest
      else
        let link :=
          if strStartsWith href "/" then "https://wellfound.com" ++ href else href
        if link ∈ seen then wellfoundLoop seen rest
        else
          let title := normalize_text (some a.text)
          { title := some title, company := none, location := some "Remote",
            link := some link, source := some "Wellfound", snippet := some title }
            :: wellfoundLoop (link :: seen) rest

/-- `scrape_wellfound` from the source; fetch outcome as input, as in
`scrape_indeed`. -/
def scrape_wellfound (fetched : Except String (List Anchor)) : List JobRecord :=
  match fetched with
  | Except.error _ => []
  | Except.ok anchors => wellfoundLoop [] anchors

/-- `scrape_generic_site_search(domain, kw)` from the source; fetch
outcome as input (the keyword only shapes the query URL handed to the
fetch collaborator). -/
def scrape_generic_site_search (domain : String)
    (fetched : Except String (List Anchor)) : List JobRecord :=
  match fetched with
  | Except.error _ => []
  | Except.ok links =>
    (links.take 15).map (fun a =>
      let title := normalize_text (some a.text)
      let snippet :=
        match a.parentText with
        | some p => normalize_text (some p)
        | none => ""
      { title := some title, company := some domain, location := some snippet,
        link := a.href, source := some ("Search:" ++ domain),
        snippet := some snippet })

/-- `collect_jobs` from the source with the fetch outcomes of every
adapter invocation supplied as inputs: concatenate all adapters'
records in invocation order, then deduplicate by key. -/
def collect_jobs (indeedFetches wellfoundFetches : List (Except String (List Anchor)))
    (genericFetches : List (String × Except String (List Anchor))) : List JobRecord :=
  let jobs :=
    (indeedFetches.map scrape_indeed).flatten ++
      (wellfoundFetches.map scrape_wellfound).flatten ++
      (genericFetches.map (fun p => scrape_generic_site_search p.1 p.2)).flatten
  dedupRecords jobs

/-! ### Email delivery and the local fallback of `main` -/

/-- The environment-variable configuration read at module top level. -/
structure EmailConfig where
  gmailUser : Option String
  gmailAppPassword : Option String
deriving DecidableEq

/-- Python falsiness of an optional string. -/
def pyFalsy (o : Option String) : Bool :=
  match o with
  | none => true
  | some s => s = ""

/-- `send_email(subject, html_body)` from the source: raise when either
credential is unset/empty, otherwise the SMTP session's outcome (an
exception from the transport propagates). -/
def send_email (cfg : EmailConfig) (smtpResult : Except String Unit) : Except String Unit :=
  if pyFalsy cfg.gmailUser || pyFalsy cfg.gmailAppPassword then
    Except.error "GMAIL_USER and GMAIL_APP_PASSWORD environment variables must be set."
  else smtpResult

/-- What `main` does with the rendered digest. -/
inductive DeliveryOutcome where
  | emailed
  | savedLocal (path : String) (contents : String)
deriving DecidableEq

/-- The delivery step of `main`: `try: send_email(...)` and on any
exception write `html_body` to `jobs_output.html`. -/
def mainDeliver (cfg : EmailConfig) (smtpResult : Except String Unit)
    (html_body : String) : DeliveryOutcome :=
  match send_email cfg smtpResult with
  | Except.ok _ => DeliveryOutcome.emailed
  | Except.error _ => DeliveryOutcome.savedLocal "jobs_output.html" html_body

/-! ### Sample records used by concrete witnesses -/

/-- A sample record with a link. -/
def sampleJobA : JobRecord :=
  { title := some "DevOps Engineer", company := some "Acme",
    location := some "Remote", link := some "https://x.example/1",
    source := some "Indeed", snippet := some "3-5 years of experience" }

/-- A second sample record with the same link as `sampleJobA`. -/
def sampleJobB : JobRecord :=
  { title := some "Cloud Engineer", company := some "Acme",
    location := some "Remote", link := some "https://x.example/1",
    source := some "Wellfound", snippet := some "other text" }

/-- A record with every field absent. -/
def emptyRecord : JobRecord :=
  { title := none, company := none, location := none,
    link := none, source := none, snippet := none }

/-! ## Lemmas about the whitespace normalizer -/

theorem splitWsAux_wordsOk (l : List Char) : ∀ acc : List Char,
    (∀ c ∈ acc, pyIsSpace c = false) →
    ∀ t ∈ splitWsAux acc l, t ≠ [] ∧ ∀ c ∈ t, pyIsSpace c = false := by
  induction l with
  | nil =>
    intro acc hacc t ht
    simp only [splitWsAux] at ht
    by_cases h : acc.isEmpty
    · simp [h] at ht
    · rw [if_neg h] at ht
      rcases List.mem_singleton.mp ht with rfl
      refine ⟨?_, ?_⟩
      · intro hrev
        exact h (by simp [List.isEmpty_iff, ← List.reverse_eq_nil_iff, hrev])
      · intro c hc
        exact hacc c (List.mem_reverse.mp hc)
  | cons c rest ih =>
    intro acc hacc t ht
    simp only [splitWsAux] at ht
    by_cases hsp : pyIsSpace c
    · rw [if_pos hsp] at ht
      by_cases hacc0 : acc.isEmpty
      · rw [if_pos hacc0] at ht
        exact ih [] (by simp) t ht
      · rw [if_neg hacc0] at ht
        rcases List.mem_cons.mp ht with rfl | hmem
        · refine ⟨?_, ?_⟩
          · intro hrev
            exact hacc0 (by simp [List.isEmpty_iff, ← List.reverse_eq_nil_iff, hrev])
          · intro x hx
            exact hacc x (List.mem_reverse.mp hx)
        · exact ih [] (by simp) t hmem
    · rw [if_neg hsp] at ht
      refine ih (c :: acc) ?_ t ht
      intro x hx
      rcases List.mem_cons.mp hx with rfl | hx2
      · exact Bool.eq_false_iff.mpr hsp
      · exact hacc x hx2

theorem splitWsAux_append_word : ∀ (t acc l : List Char),
    (∀ c ∈ t, pyIsSpace c = false) →
    splitWsAux acc (t ++ l) = splitWsAux (t.reverse ++ acc) l := by
  intro t
  induction t with
  | nil => intro acc l _; simp
  | cons c t2 ih =>
    intro acc l h
    have hc : pyIsSpace c = false := h c (List.mem_cons_self c t2)
    simp only [List.cons_append, splitWsAux, hc, List.append_eq]
    rw [if_neg (by simp [hc])]
    rw [ih (c :: acc) l (fun x hx => h x (List.mem_cons_of_mem _ hx))]
    simp

theorem splitWsAux_space (acc l : List Char) :
    splitWsAux acc (' ' :: l) =
      if acc.isEmpty then splitWsAux [] l else acc.reverse :: splitWsAux [] l := by
  simp [splitWsAux, pyIsSpace]

theorem pySplit_joinSp : ∀ ts : List (List Char),
    (∀ t ∈ ts, t ≠ [] ∧ ∀ c ∈ t, pyIsSpace c = false) →
    pySplit (joinSp ts) = ts := by
  intro ts
  induction ts with
  | nil => intro _; rfl
  | cons t ts2 ih =>
    intro h
    obtain ⟨htne, htws⟩ := h t (List.mem_cons_self t ts2)
    cases ts2 with
    | nil =>
      show pySplit (joinSp [t]) = [t]
      have h1 : joinSp [t] = t := rfl
      rw [h1]
      unfold pySplit
      have h2 : splitWsAux [] (t ++ []) = splitWsAux (t.reverse ++ []) [] :=
        splitWsAux_append_word t [] [] htws
      rw [List.append_nil] at h2
      rw [h2]
      simp only [List.append_nil, splitWsAux]
      rw [if_neg (by simp [List.isEmpty_iff, htne])]
      simp
    | cons t2 ts3 =>
      have h1 : joinSp (t :: t2 :: ts3) = t ++ ' ' :: joinSp (t2 :: ts3) := rfl
      unfold pySplit
      rw [h1, splitWsAux_append_word t [] _ htws, List.append_nil, splitWsAux_space]
      rw [if_neg (by simp [List.isEmpty_iff, htne])]
      rw [List.reverse_reverse]
      have := ih (fun x hx => h x (List.mem_cons_of_mem _ hx))
      unfold pySplit at this
      rw [this]

theorem normChars_idem (l : List Char) : normChars (normChars l) = normChars l := by
  unfold normChars
  rw [pySplit_joinSp (pySplit l) (splitWsAux_wordsOk l [] (by simp))]

/-- Every value of `parse_experience_text` has one of three shapes:
both components present, only the minimum present, or neither. -/
theorem parse_experience_shapes (text : Option String) :
    (∃ n m, parse_experience_text text = (some n, some m)) ∨
    (∃ n, parse_experience_text text = (some n, none)) ∨
    parse_experience_text text = (none, none) := by
  cases text with
  | none => right; right; rfl
  | some s =>
    simp only [parse_experience_text]
    by_cases hs : s = ""
    · right; right; simp [hs]
    · rw [if_neg hs]
      cases hr : searchRange (lowerChars s.data) with
      | some p =>
        left
        exact ⟨p.1, p.2, by simp⟩
      | none =>
        cases hp : searchPlus (lowerChars s.data) with
        | some n => right; left; exact ⟨n, rfl⟩
        | none =>
          cases hm : searchMin (lowerChars s.data) with
          | some n => right; left; exact ⟨n, rfl⟩
          | none =>
            cases hb : searchBare (lowerChars s.data) with
            | some n => left; exact ⟨n, n, rfl⟩
            | none => right; right; rfl

/-- C8: the shared whitespace normalizer is idempotent, and maps both
`None` and the empty string to the empty string. -/
theorem normalize_text_idempotent :
    (∀ s : String, normalize_text (some (normalize_text (some s))) = normalize_text (some s)) ∧
    normalize_text none = "" ∧ normalize_text (some "") = "" := by
  refine ⟨?_, rfl, rfl⟩
  intro s
  by_cases hs : s = ""
  · subst hs; rfl
  · have h1 : normalize_text (some s) = String.mk (normChars s.data) := by
      simp [normalize_text, hs]
    rw [h1]
    simp only [normalize_text]
    by_cases h2 : String.mk (normChars s.data) = ""
    · rw [if_pos h2]; exact h2.symm
    · rw [if_neg h2]
      show String.mk (normChars (normChars s.data)) = String.mk (normChars s.data)
      exact congrArg String.mk (normChars_idem s.data)

/-- C2: `experience_matches` with the default band `(2, 6)`: absent
requirements always accepted; both present accepted iff the closed
intervals overlap (NOT (max < 2 OR min > 6)); only min accepted iff
`min ≤ 6`; only max accepted iff `max ≥ 2`; `(7, 9)` rejected and
`(1, 3)` accepted. -/
theorem experience_matches_spec :
    experience_matches none none = true ∧
    (∀ n m : Nat, experience_matches (some n) (some m) = true ↔
      ¬(m < MIN_YEARS ∨ n > MAX_YEARS)) ∧
    (∀ n : Nat, experience_matches (some n) none = true ↔ n ≤ MAX_YEARS) ∧
    (∀ m : Nat, experience_matches none (some m) = true ↔ m ≥ MIN_YEARS) ∧
    experience_matches (some 7) (some 9) = false ∧
    experience_matches (some 1) (some 3) = true ∧
    MIN_YEARS = 2 ∧ MAX_YEARS = 6 := by
  refine ⟨rfl, ?_, ?_, ?_, rfl, rfl, rfl, rfl⟩
  · intro n m
    simp [experience_matches]
  · intro n
    simp [experience_matches]
  · intro m
    simp [experience_matches]

/-- C6: the extractor never produces an isolated maximum — whenever the
first component of `parse_experience_text` is `None` so is the second —
hence on extractor outputs the `only max` branch of the
`experience_matches` if-chain and its final fallthrough never fire. -/
theorem extractor_never_isolated_max :
    ∀ text : Option String,
      ((parse_experience_text text).1 = none → (parse_experience_text text).2 = none) ∧
      experienceBranch (parse_experience_text text).1 (parse_experience_text text).2 ≠
        ExpBranch.maxOnly ∧
      experienceBranch (parse_experience_text text).1 (parse_experience_text text).2 ≠
        ExpBranch.fallthrough := by
  intro text
  rcases parse_experience_shapes text with ⟨n, m, h⟩ | ⟨n, h⟩ | h <;> rw [h] <;>
    simp [experienceBranch]

/-- Witness for C6 at a concrete input with no experience phrase. -/
theorem extractor_never_isolated_max_witness :
    (parse_experience_text (some "tbd")).2 = none :=
  (extractor_never_isolated_max (some "tbd")).1 (by rfl)

/-- C5: a failed fetch/parse/select phase (a raised exception caught by
the adapter's `except` clause) makes that adapter invocation contribute
the empty record list, and a run in which every invocation fails still
completes with an empty collection. -/
theorem adapter_failure_yields_empty :
    ∀ e : String,
      scrape_indeed (Except.error e) = [] ∧
      scrape_wellfound (Except.error e) = [] ∧
      (∀ domain : String, scrape_generic_site_search domain (Except.error e) = []) ∧
      (∀ (ifs wfs : List (Except String (List Anchor)))
          (gfs : List (String × Except String (List Anchor))),
        (∀ f ∈ ifs, f = Except.error e) →
        (∀ f ∈ wfs, f = Except.error e) →
        (∀ p ∈ gfs, p.2 = Except.error e) →
        collect_jobs ifs wfs gfs = []) := by
  intro e
  refine ⟨rfl, rfl, fun _ => rfl, ?_⟩
  intro ifs wfs gfs hi hw hg
  have h1 : ifs.map scrape_indeed = ifs.map (fun _ => []) := by
    apply List.map_congr_left
    intro f hf
    rw [hi f hf]
    rfl
  have h2 : wfs.map scrape_wellfound = wfs.map (fun _ => []) := by
    apply List.map_congr_left
    intro f hf
    rw [hw f hf]
    rfl
  have h3 : gfs.map (fun p => scrape_generic_site_search p.1 p.2) =
      gfs.map (fun _ => []) := by
    apply List.map_congr_left
    intro p hp
    rw [hg p hp]
    rfl
  simp [collect_jobs, h1, h2, h3, dedupRecords, dedupAux, List.flatten_eq_nil_iff]

/-- Witness for C5: one failing invocation of each adapter kind. -/
theorem adapter_failure_yields_empty_witness :
    collect_jobs [Except.error "timeout"] [Except.error "timeout"]
      [("example.com", Except.error "timeout")] = [] :=
  (adapter_failure_yields_empty "timeout").2.2.2
    [Except.error "timeout"] [Except.error "timeout"]
    [("example.com", Except.error "timeout")]
    (by simp) (by simp) (by simp)

/-- C7: whenever `send_email` fails — in particular when either
credential is unset — `main` does not fail: it writes the
already-rendered digest body to `jobs_output.html`, so the run's result
is preserved. -/
theorem delivery_failure_fallback :
    (∀ (cfg : EmailConfig) (r : Except String Unit) (body e : String),
        send_email cfg r = Except.error e →
        mainDeliver cfg r body = DeliveryOutcome.savedLocal "jobs_output.html" body) ∧
    (∀ (cfg : EmailConfig) (r : Except String Unit),
        pyFalsy cfg.gmailUser = true ∨ pyFalsy cfg.gmailAppPassword = true →
        ∃ e, send_email cfg r = Except.error e) := by
  constructor
  · intro cfg r body e h
    simp [mainDeliver, h]
  · intro cfg r h
    refine ⟨"GMAIL_USER and GMAIL_APP_PASSWORD environment variables must be set.", ?_⟩
    simp only [send_email]
    rw [if_pos]
    rcases h with h | h <;> simp [h]

/-- Witness for C7: missing credentials with a healthy SMTP transport
still end in the local fallback carrying the digest body. -/
theorem delivery_failure_fallback_witness :
    mainDeliver ⟨none, none⟩ (Except.ok ()) "the digest" =
      DeliveryOutcome.savedLocal "jobs_output.html" "the digest" :=
  delivery_failure_fallback.1 ⟨none, none⟩ (Except.ok ()) "the digest"
    "GMAIL_USER and GMAIL_APP_PASSWORD environment variables must be set." rfl

/-- C1: `parse_experience_text` is the four-pattern dispatch with
first-match-wins precedence — a successful bounded-range search decides
the result outright; each later pattern is consulted only when all
earlier ones fail; with no match the result is `(None, None)`; and an
input whose bounded-range search yields `N ≤ M` returns exactly
`(N, M)`.  Closed instances exercise each precedence step. -/
theorem parse_experience_dispatch :
    (∀ (s : String) (n m : Nat),
        searchRange (lowerChars s.data) = some (n, m) →
        parse_experience_text (some s) = (some n, some m)) ∧
    (∀ (s : String) (n m : Nat),
        searchRange (lowerChars s.data) = some (n, m) → n ≤ m →
        parse_experience_text (some s) = (some n, some m)) ∧
    (∀ (s : String) (n : Nat),
        searchRange (lowerChars s.data) = none →
        searchPlus (lowerChars s.data) = some n →
        parse_experience_text (some s) = (some n, none)) ∧
    (∀ (s : String) (n : Nat),
        searchRange (lowerChars s.data) = none →
        searchPlus (lowerChars s.data) = none →
        searchMin (lowerChars s.data) = some n →
        parse_experience_text (some s) = (some n, none)) ∧
    (∀ (s : String) (n : Nat),
        searchRange (lowerChars s.data) = none →
        searchPlus (lowerChars s.data) = none →
        searchMin (lowerChars s.data) = none →
        searchBare (lowerChars s.data) = some n →
        parse_experience_text (some s) = (some n, some n)) ∧
    (∀ s : String,
        searchRange (lowerChars s.data) = none →
        searchPlus (lowerChars s.data) = none →
        searchMin (lowerChars s.data) = none →
        searchBare (lowerChars s.data) = none →
        parse_experience_text (some s) = (none, none)) ∧
    parse_experience_text none = (none, none) ∧
    parse_experience_text (some "5+ years, minimum of 3 years") = (some 5, none) ∧
    parse_experience_text (some "minimum of 4 years") = (some 4, none) ∧
    parse_experience_text (some "3 years") = (some 3, some 3) := by
  have hne : ∀ s : String, searchRange (lowerChars s.data) ≠ none → s ≠ "" := by
    intro s h he
    subst he
    exact h rfl
  have hneP : ∀ s : String, searchPlus (lowerChars s.data) ≠ none → s ≠ "" := by
    intro s h he
    subst he
    exact h rfl
  have hneM : ∀ s : String, searchMin (lowerChars s.data) ≠ none → s ≠ "" := by
    intro s h he
    subst he
    exact h rfl
  have hneB : ∀ s : String, searchBare (lowerChars s.data) ≠ none → s ≠ "" := by
    intro s h he
    subst he
    exact h rfl
  refine ⟨?_, ?_, ?_, ?_, ?_, ?_, rfl, by decide, by decide, by decide⟩
  · intro s n m h
    have hs := hne s (by simp [h])
    simp [parse_experience_text, hs, h]
  · intro s n m h _
    have hs := hne s (by simp [h])
    simp [parse_experience_text, hs, h]
  · intro s n h1 h2
    have hs := hneP s (by simp [h2])
    simp [parse_experience_text, hs, h1, h2]
  · intro s n h1 h2 h3
    have hs := hneM s (by simp [h3])
    simp [parse_experience_text, hs, h1, h2, h3]
  · intro s n h1 h2 h3 h4
    have hs := hneB s (by simp [h4])
    simp [parse_experience_text, hs, h1, h2, h3, h4]
  · intro s h1 h2 h3 h4
    by_cases hs : s = "" <;> simp [parse_experience_text, hs, h1, h2, h3, h4]

/-- Witness for C1: the spec's own example `3-5 years of experience`,
with `3 ≤ 5`, returns exactly `(3, 5)`. -/
theorem parse_experience_dispatch_witness :
    parse_experience_text (some "3-5 years of experience") = (some 3, some 5) :=
  parse_experience_dispatch.2.1 "3-5 years of experience" 3 5 (by decide) (by decide)

/-- C9: the bounded-range pattern enforces no ordering — a successful
bounded-range search with `M < N` still makes the extractor return
`(N, M)`, and that inverted pair is then judged by the interval-overlap
rule of `experience_matches`. -/
theorem parse_experience_unordered_range :
    ∀ (s : String) (n m : Nat),
      searchRange (lowerChars s.data) = some (n, m) → m < n →
      parse_experience_text (some s) = (some n, some m) ∧
      experience_matches (some n) (some m) =
        !(decide (m < MIN_YEARS) || decide (n > MAX_YEARS)) := by
  intro s n m h hlt
  have hs : s ≠ "" := by
    intro he
    subst he
    simp [lowerChars] at h
    cases h
  refine ⟨by simp [parse_experience_text, hs, h], ?_⟩
  simp [experience_matches]

/-- Witness for C9: `5-3 years` (an inverted range) extracts to
`(5, 3)`. -/
theorem parse_experience_unordered_range_witness :
    parse_experience_text (some "5-3 years") = (some 5, some 3) :=
  (parse_experience_unordered_range "5-3 years" 5 3 (by decide) (by decide)).1

/-! ## Lemmas about the dedup loop of `collect_jobs` -/

theorem dedupAux_mem_key : ∀ (l : List JobRecord) (seen : List String) (j : JobRecord),
    j ∈ dedupAux seen l → recordKey j ≠ "" ∧ recordKey j ∉ seen := by
  intro l
  induction l with
  | nil => intro seen j h; simp [dedupAux] at h
  | cons j1 rest ih =>
    intro seen j h
    simp only [dedupAux] at h
    by_cases h1 : recordKey j1 = ""
    · rw [if_pos h1] at h
      exact ih seen j h
    · rw [if_neg h1] at h
      by_cases h2 : recordKey j1 ∈ seen
      · rw [if_pos h2] at h
        exact ih seen j h
      · rw [if_neg h2] at h
        rcases List.mem_cons.mp h with rfl | hmem
        · exact ⟨h1, h2⟩
        · have := ih (recordKey j1 :: seen) j hmem
          exact ⟨this.1, fun hs => this.2 (List.mem_cons_of_mem _ hs)⟩

theorem dedupAux_sublist : ∀ (l : List JobRecord) (seen : List String),
    List.Sublist (dedupAux seen l) l := by
  intro l
  induction l with
  | nil => intro seen; simp [dedupAux]
  | cons j1 rest ih =>
    intro seen
    simp only [dedupAux]
    by_cases h1 : recordKey j1 = ""
    · rw [if_pos h1]
      exact (ih seen).cons j1
    · rw [if_neg h1]
      by_cases h2 : recordKey j1 ∈ seen
      · rw [if_pos h2]
        exact (ih seen).cons j1
      · rw [if_neg h2]
        exact (ih (recordKey j1 :: seen)).cons₂ j1

theorem dedupAux_nodup_keys : ∀ (l : List JobRecord) (seen : List String),
    ((dedupAux seen l).map recordKey).Nodup := by
  intro l
  induction l with
  | nil => intro seen; simp [dedupAux]
  | cons j1 rest ih =>
    intro seen
    simp only [dedupAux]
    by_cases h1 : recordKey j1 = ""
    · rw [if_pos h1]; exact ih seen
    · rw [if_neg h1]
      by_cases h2 : recordKey j1 ∈ seen
      · rw [if_pos h2]; exact ih seen
      · rw [if_neg h2]
        simp only [List.map_cons, List.nodup_cons]
        refine ⟨?_, ih (recordKey j1 :: seen)⟩
        intro hmem
        rcases List.mem_map.mp hmem with ⟨j2, hj2, hkey⟩
        have := (dedupAux_mem_key rest (recordKey j1 :: seen) j2 hj2).2
        exact this (by rw [hkey]; exact List.mem_cons_self _ _)

theorem dedupAux_covers : ∀ (l : List JobRecord) (seen : List String) (j : JobRecord),
    j ∈ l → recordKey j ≠ "" → recordKey j ∉ seen →
    ∃ j2 ∈ dedupAux seen l, recordKey j2 = recordKey j := by
  intro l
  induction l with
  | nil => intro seen j h; simp at h
  | cons j1 rest ih =>
    intro seen j hj hkey hseen
    simp only [dedupAux]
    by_cases h1 : recordKey j1 = ""
    · rw [if_pos h1]
      rcases List.mem_cons.mp hj with rfl | hmem
      · exact absurd h1 hkey
      · exact ih seen j hmem hkey hseen
    · rw [if_neg h1]
      by_cases h2 : recordKey j1 ∈ seen
      · rw [if_pos h2]
        rcases List.mem_cons.mp hj with rfl | hmem
        · exact absurd h2 hseen
        · exact ih seen j hmem hkey hseen
      · rw [if_neg h2]
        rcases List.mem_cons.mp hj with rfl | hmem
        · exact ⟨_, List.mem_cons_self _ _, rfl⟩
        · by_cases heq : recordKey j = recordKey j1
          · exact ⟨j1, List.mem_cons_self _ _, heq.symm⟩
          · rcases ih (recordKey j1 :: seen) j hmem hkey
                (by simp [heq, hseen]) with ⟨j2, hj2, hk⟩
            exact ⟨j2, List.mem_cons_of_mem _ hj2, hk⟩

theorem dedupAux_find? : ∀ (l : List JobRecord) (seen : List String) (k : String),
    k ≠ "" → k ∉ seen →
    (dedupAux seen l).find? (fun j => recordKey j == k) =
      l.find? (fun j => recordKey j == k) := by
  intro l
  induction l with
  | nil => intro seen k _ _; simp [dedupAux]
  | cons j1 rest ih =>
    intro seen k hk hkseen
    simp only [dedupAux]
    by_cases h1 : recordKey j1 = ""
    · rw [if_pos h1]
      rw [List.find?_cons_of_neg _ (by simp [h1]; exact fun h => hk h.symm)]
      exact ih seen k hk hkseen
    · rw [if_neg h1]
      by_cases h2 : recordKey j1 ∈ seen
      · rw [if_pos h2]
        have hne : recordKey j1 ≠ k := fun h => hkseen (h ▸ h2)
        rw [List.find?_cons_of_neg _ (by simp [hne])]
        exact ih seen k hk hkseen
      · rw [if_neg h2]
        by_cases heq : recordKey j1 = k
        · rw [List.find?_cons_of_pos _ (by simp [heq]),
            List.find?_cons_of_pos _ (by simp [heq])]
        · rw [List.find?_cons_of_neg _ (by simp [heq]),
            List.find?_cons_of_neg _ (by simp [heq])]
          refine ih (recordKey j1 :: seen) k hk ?_
          intro hmem
          rcases List.mem_cons.mp hmem with h | h
          · exact heq h.symm
          · exact hkseen h

/-- C3: the Aggregator's dedup step: surviving keys are pairwise
distinct; the output is a sublist of the input (so surviving records
are passed through in input order, unmerged); no surviving record has
an empty key; every nonempty input key survives; and for every
nonempty key the surviving record is exactly the first input record
with that key. -/
theorem dedup_first_wins :
    ∀ l : List JobRecord,
      ((dedupRecords l).map recordKey).Nodup ∧
      List.Sublist (dedupRecords l) l ∧
      (∀ j ∈ dedupRecords l, recordKey j ≠ "") ∧
      (∀ j ∈ l, recordKey j ≠ "" → ∃ j2 ∈ dedupRecords l, recordKey j2 = recordKey j) ∧
      (∀ k : String, k ≠ "" →
        (dedupRecords l).find? (fun j => recordKey j == k) =
          l.find? (fun j => recordKey j == k)) := by
  intro l
  refine ⟨dedupAux_nodup_keys l [], dedupAux_sublist l [], ?_, ?_, ?_⟩
  · intro j hj
    exact (dedupAux_mem_key l [] j hj).1
  · intro j hj hkey
    exact dedupAux_covers l [] j hj hkey (by simp)
  · intro k hk
    exact dedupAux_find? l [] k hk (by simp)

/-- Witness for C3: feeding two records with the same link keeps only
the first, and the survivor is the first-supplied one. -/
theorem dedup_first_wins_witness :
    (∃ j2 ∈ dedupRecords [sampleJobA, sampleJobB],
      recordKey j2 = recordKey sampleJobA) ∧
    (dedupRecords [sampleJobA, sampleJobB]).find?
        (fun j => recordKey j == "https://x.example/1") =
      [sampleJobA, sampleJobB].find?
        (fun j => recordKey j == "https://x.example/1") :=
  ⟨(dedup_first_wins [sampleJobA, sampleJobB]).2.2.2.1 sampleJobA
      (List.mem_cons_self _ _) (by decide),
    (dedup_first_wins [sampleJobA, sampleJobB]).2.2.2.2 "https://x.example/1" (by decide)⟩

/-- C4: `filter_jobs` keeps exactly the records accepted by the
three-stage predicate (keyword relevance on the combined blob, then
experience extraction plus range acceptance, then location acceptance
on `location or snippet`), passing survivors through unmodified in
input order: it equals `List.filter filterKeep`, and its output is a
sublist of its input. -/
theorem filter_jobs_spec :
    ∀ l : List JobRecord,
      filter_jobs l = l.filter filterKeep ∧
      List.Sublist (filter_jobs l) l := by
  have hmain : ∀ l : List JobRecord, filter_jobs l = l.filter filterKeep := by
    intro l
    induction l with
    | nil => rfl
    | cons j rest ih =>
      simp only [filter_jobs, List.filter_cons]
      cases hb1 : text_contains_keywords (some (combinedText j)) with
      | false => simp [filterKeep, hb1, ih]
      | true =>
        cases hb2 : experience_matches
            (parse_experience_text (some (combinedText j))).1
            (parse_experience_text (some (combinedText j))).2 with
        | false => simp [filterKeep, hb1, hb2, ih]
        | true =>
          cases hb3 : location_matches (pyOrOpt j.location j.snippet) with
          | false => simp [filterKeep, hb1, hb2, hb3, ih]
          | true => simp [filterKeep, hb1, hb2, hb3, ih]
  intro l
  refine ⟨hmain l, ?_⟩
  rw [hmain l]
  exact List.filter_sublist l

/-- C10: keyword relevance is false on `None` and on the empty string,
so a record whose four text fields are all absent or empty fails the
first (keyword) check of `filter_jobs` and is dropped. -/
theorem empty_record_dropped :
    text_contains_keywords none = false ∧
    text_contains_keywords (some "") = false ∧
    (∀ j : JobRecord,
      (j.title = none ∨ j.title = some "") →
      (j.company = none ∨ j.company = some "") →
      (j.location = none ∨ j.location = some "") →
      (j.snippet = none ∨ j.snippet = some "") →
      text_contains_keywords (some (combinedText j)) = false ∧
      ∀ l : List JobRecord, filter_jobs (j :: l) = filter_jobs l) := by
  refine ⟨by decide, by decide, ?_⟩
  intro j h1 h2 h3 h4
  have e1 : j.title.getD "" = "" := by rcases h1 with h | h <;> simp [h]
  have e2 : j.company.getD "" = "" := by rcases h2 with h | h <;> simp [h]
  have e3 : j.location.getD "" = "" := by rcases h3 with h | h <;> simp [h]
  have e4 : j.snippet.getD "" = "" := by rcases h4 with h | h <;> simp [h]
  have hjoin : joinFields j = "   " := by
    simp [joinFields, e1, e2, e3, e4]
  have hct : combinedText j = "" := by
    rw [combinedText, hjoin]
    decide
  have hkw : text_contains_keywords (some (combinedText j)) = false := by
    rw [hct]
    decide
  refine ⟨hkw, ?_⟩
  intro l
  simp [filter_jobs, hkw]

/-- Witness for C10: the all-empty record is dropped from a singleton
input. -/
theorem empty_record_dropped_witness :
    filter_jobs [emptyRecord] = filter_jobs [] :=
  (empty_record_dropped.2.2 emptyRecord (Or.inl rfl) (Or.inl rfl)
    (Or.inl rfl) (Or.inl rfl)).2 []

end JobsScraper
